import Mathlib

/-!
Shallow embedding of the fan-control daemon `fevm-fan-curve.py`.

Python floats are modelled as rationals (`ℚ`), Python ints as `ℤ`.
File-system reads that may fail are modelled as `Option`/`Except` values.
Python's built-in `round` (round half to even, "banker's rounding") is
modelled by `pyRound`.
-/

/-- Python's `round` on a real value: nearest integer, ties to even. -/
def pyRound (q : ℚ) : ℤ :=
  if q - ⌊q⌋ < 1/2 then ⌊q⌋
  else if 1/2 < q - ⌊q⌋ then ⌊q⌋ + 1
  else if ⌊q⌋ % 2 = 0 then ⌊q⌋ else ⌊q⌋ + 1

/-- Modelled from the spec's words: rounding to nearest with exact halves
rounding away from zero (for the nonnegative values at issue this is
round-half-up).  This is the spec-side rounding rule, to be compared with
the source's `pyRound`. -/
def roundHalfAway (q : ℚ) : ℤ :=
  if q - ⌊q⌋ < 1/2 then ⌊q⌋ else ⌊q⌋ + 1

/-- The linear-interpolation expression
`d0 + (temp - t0) / (t1 - t0) * (d1 - d0)` from `lerp_curve`. -/
def lerpInterp (temp : ℚ) (p0 p1 : ℚ × ℤ) : ℚ :=
  (p0.2 : ℚ) + (temp - p0.1) / (p1.1 - p0.1) * ((p1.2 : ℚ) - (p0.2 : ℚ))

/-- The `for (t0,d0),(t1,d1) in zip(curve, curve[1:])` scan of `lerp_curve`:
return the interpolated duty for the first adjacent segment bracketing
`temp`, or the fallback `fb` (= `curve[-1][1]` at the call site) when no
segment matches. -/
def segLoop (temp : ℚ) : List (ℚ × ℤ) → ℤ → ℤ
  | p0 :: p1 :: rest, fb =>
      if p0.1 ≤ temp ∧ temp ≤ p1.1 then pyRound (lerpInterp temp p0 p1)
      else segLoop temp (p1 :: rest) fb
  | _, fb => fb

/-- Python `lerp_curve(temp_c, curve)`: clamp to the first/last duty outside the
curve's temperature range, otherwise interpolate on the bracketing
segment.  `none` models the `IndexError` Python raises on an empty curve. -/
def lerp_curve (temp : ℚ) : List (ℚ × ℤ) → Option ℤ
  | [] => none
  | p :: rest =>
      if temp ≤ p.1 then some p.2
      else if (List.getLastD rest p).1 ≤ temp then some (List.getLastD rest p).2
      else some (segLoop temp (p :: rest) (List.getLastD rest p).2)

/-- Python `clamp_duty(duty, min_duty, max_duty) = max(min_duty, min(max_duty, duty))`. -/
def clamp_duty (duty min_duty max_duty : ℤ) : ℤ :=
  max min_duty (min max_duty duty)

/-- The value `write_duty` writes to the actuator path: the clamped duty. -/
def write_duty_value (duty min_duty max_duty : ℤ) : ℤ :=
  clamp_duty duty min_duty max_duty

/-- The `prev_t` loop of `parse_curve`: check that temperatures are
strictly increasing, threading the previous temperature (`none` before the
first point). -/
def checkIncreasing : Option ℚ → List (ℚ × ℤ) → Bool
  | _, [] => true
  | prev, p :: rest =>
      match prev with
      | some t => if p.1 ≤ t then false else checkIncreasing (some p.1) rest
      | none => checkIncreasing (some p.1) rest

/-- Python `parse_curve` on an input whose points are already well-formed
`[temp_c, duty]` pairs (the per-point shape conversion succeeded):
reject an empty list, then reject non-strictly-increasing temperatures,
otherwise return the points unchanged and in order. -/
def parse_curve (raw : List (ℚ × ℤ)) : Except String (List (ℚ × ℤ)) :=
  if raw.isEmpty then Except.error "curve must not be empty"
  else if checkIncreasing none raw then Except.ok raw
  else Except.error "curve temperatures must be strictly increasing"

/-- One hardware-monitoring source: its `name` attribute (`none` when the
name file cannot be read) and its `temp*_input` readings in glob order
(`none` when a read or parse fails; otherwise the raw millidegree value). -/
structure Hwmon where
  name : Option String
  inputs : List (Option ℤ)
  deriving Repr, DecidableEq

/-- Python `find_hwmons_by_name`: scan the sources in order, collecting the path
of every source whose readable name equals `name`. -/
def find_hwmons_by_name (sources : List (String × Hwmon)) (name : String) :
    List String :=
  sources.foldl
    (fun found p =>
      match p.2.name with
      | some n => if n = name then found ++ [p.1] else found
      | none => found)
    []

/-- Python `resolve_hwmons`: for each logical name in order, append each matching
source path not seen before (the Python `seen` set has the same membership
as the `dedup` list). -/
def resolve_hwmons (sources : List (String × Hwmon)) (names : List String) :
    List String :=
  names.foldl
    (fun dedup name =>
      (find_hwmons_by_name sources name).foldl
        (fun d h => if h ∈ d then d else d ++ [h]) dedup)
    []

/-- Modelled from the spec's words: deduplication keeping each element's
first occurrence, in first-seen order.  Spec-side definition, to be
compared with `resolve_hwmons`. -/
def dedupFirstSeen (l : List String) : List String :=
  l.foldl (fun d h => if h ∈ d then d else d ++ [h]) []

/-- Python `read_temp_millic`: a raw millidegree integer becomes degrees Celsius. -/
def read_temp_millic (raw : ℤ) : ℚ :=
  (raw : ℚ) / 1000

/-- The `temps` list built by `max_temp_in_hwmons`: every readable
`temp*_input` of every source, parsed; unreadable inputs are skipped. -/
def collectTemps (hwmon_paths : List Hwmon) : List ℚ :=
  hwmon_paths.foldl
    (fun temps h => temps ++ h.inputs.filterMap (fun r => r.map read_temp_millic))
    []

/-- Python `max_temp_in_hwmons`: error when no input was readable, otherwise the
maximum of the parsed temperatures. -/
def max_temp_in_hwmons (hwmon_paths : List Hwmon) : Except String ℚ :=
  match collectTemps hwmon_paths with
  | [] => Except.error "no temp_input found"
  | t :: ts => Except.ok (ts.foldl max t)

/-- The startup sensor-resolution policy of `main` (lines 213–221): a
missing CPU group is fatal (`SystemExit`, a non-zero process exit); a
missing memory group falls back to the CPU group with a warning when
`mem_fallback_to_cpu` is set, and is fatal otherwise.  The result carries
the two groups and whether the fallback warning was emitted. -/
def startup_hwmons (cpu_hwmons mem_hwmons : List String)
    (mem_fallback_to_cpu : Bool) :
    Except String (List String × List String × Bool) :=
  if cpu_hwmons.isEmpty then Except.error "CPU hwmon not found"
  else if mem_hwmons.isEmpty then
    if mem_fallback_to_cpu then Except.ok (cpu_hwmons, cpu_hwmons, true)
    else Except.error "MEM hwmon not found"
  else Except.ok (cpu_hwmons, mem_hwmons, false)

/-- The configuration values the control loop consumes. -/
structure Config where
  min_duty : ℤ
  max_duty : ℤ
  failsafe_duty : ℤ
  cpu_curve : List (ℚ × ℤ)
  mem_curve : List (ℚ × ℤ)

/-- The outcome of each fallible I/O operation of one tick: the two
samples, and whether each of the four possible actuator writes succeeds. -/
structure TickEnv where
  cpuSample : Except String ℚ
  memSample : Except String ℚ
  write1Ok : Bool
  write2Ok : Bool
  fsWrite1Ok : Bool
  fsWrite2Ok : Bool

/-- The writes performed by the `except` branch of the loop body: failsafe
duty to fan 1 then fan 2, both clamped; a failure on the first write
aborts the second (both sit in one `try`), and the failure is swallowed. -/
def failsafeWrites (cfg : Config) (env : TickEnv) : List (Nat × ℤ) :=
  if env.fsWrite1Ok then
    if env.fsWrite2Ok then
      [(1, write_duty_value cfg.failsafe_duty cfg.min_duty cfg.max_duty),
       (2, write_duty_value cfg.failsafe_duty cfg.min_duty cfg.max_duty)]
    else [(1, write_duty_value cfg.failsafe_duty cfg.min_duty cfg.max_duty)]
  else []

/-- One iteration of the `while RUNNING` loop body: the list of actuator
writes performed as `(fan number, value)` pairs, and whether the loop
continues to the next tick.  Any failure among sampling, curve evaluation,
or the duty writes diverts to `failsafeWrites`. -/
def tick (cfg : Config) (env : TickEnv) : List (Nat × ℤ) × Bool :=
  match env.cpuSample, env.memSample with
  | Except.ok cpu_t, Except.ok mem_t =>
    match lerp_curve cpu_t cfg.cpu_curve, lerp_curve mem_t cfg.mem_curve with
    | some cpu_duty, some mem_duty =>
      if env.write1Ok then
        if env.write2Ok then
          ([(1, write_duty_value cpu_duty cfg.min_duty cfg.max_duty),
            (2, write_duty_value mem_duty cfg.min_duty cfg.max_duty)], true)
        else
          ((1, write_duty_value cpu_duty cfg.min_duty cfg.max_duty)
             :: failsafeWrites cfg env, true)
      else (failsafeWrites cfg env, true)
    | _, _ => (failsafeWrites cfg env, true)
  | _, _ => (failsafeWrites cfg env, true)

/-- Whether some operation of the tick's `try` block fails: a sample
raises, a curve evaluation raises, or a duty write raises. -/
def tickOpFailed (cfg : Config) (env : TickEnv) : Bool :=
  match env.cpuSample, env.memSample with
  | Except.ok cpu_t, Except.ok mem_t =>
    match lerp_curve cpu_t cfg.cpu_curve, lerp_curve mem_t cfg.mem_curve with
    | some _, some _ => !env.write1Ok || !env.write2Ok
    | _, _ => true
  | _, _ => true

/-- The loop over a finite schedule of tick environments: run each tick
while the previous one asked to continue. -/
def runLoop (cfg : Config) : List TickEnv → List (List (Nat × ℤ))
  | [] => []
  | env :: rest =>
      let r := tick cfg env
      if r.2 then r.1 :: runLoop cfg rest else [r.1]

/-! ### Helper lemmas about `pyRound` -/

lemma floor_le_pyRound (q : ℚ) : ⌊q⌋ ≤ pyRound q := by
  unfold pyRound
  split_ifs <;> omega

lemma pyRound_le_floor_add_one (q : ℚ) : pyRound q ≤ ⌊q⌋ + 1 := by
  unfold pyRound
  split_ifs <;> omega

lemma pyRound_intCast (n : ℤ) : pyRound (n : ℚ) = n := by
  unfold pyRound
  simp only [Int.floor_intCast, sub_self]
  norm_num

lemma pyRound_mono {a b : ℚ} (h : a ≤ b) : pyRound a ≤ pyRound b := by
  rcases eq_or_lt_of_le (Int.floor_mono h) with hf | hf
  · have hfr : a - (⌊a⌋ : ℚ) ≤ b - (⌊a⌋ : ℚ) := by linarith
    unfold pyRound
    rw [← hf]
    split_ifs <;> first | omega | (exfalso; linarith)
  · calc pyRound a ≤ ⌊a⌋ + 1 := pyRound_le_floor_add_one a
    _ ≤ ⌊b⌋ := by omega
    _ ≤ pyRound b := floor_le_pyRound b

lemma intCast_le_pyRound {n : ℤ} {q : ℚ} (h : (n : ℚ) ≤ q) : n ≤ pyRound q := by
  have := pyRound_mono h
  rwa [pyRound_intCast] at this

lemma pyRound_le_intCast {n : ℤ} {q : ℚ} (h : q ≤ (n : ℚ)) : pyRound q ≤ n := by
  have := pyRound_mono h
  rwa [pyRound_intCast] at this

/-! ### Helper lemmas about `lerpInterp` -/

lemma lerpInterp_le_max (p0 p1 : ℚ × ℤ) (temp : ℚ) (ht : p0.1 < p1.1)
    (hl : p0.1 ≤ temp) (hr : temp ≤ p1.1) :
    lerpInterp temp p0 p1 ≤ ((max p0.2 p1.2 : ℤ) : ℚ) := by
  obtain ⟨t0, d0⟩ := p0
  obtain ⟨t1, d1⟩ := p1
  simp only [lerpInterp] at *
  have hpos : (0 : ℚ) < t1 - t0 := by linarith
  have hr0 : 0 ≤ (temp - t0) / (t1 - t0) := div_nonneg (by linarith) (le_of_lt hpos)
  have hr1 : (temp - t0) / (t1 - t0) ≤ 1 := by
    rw [div_le_one hpos]
    linarith
  push_cast
  rcases le_total (d0 : ℚ) (d1 : ℚ) with hd | hd
  · rw [max_eq_right (by exact_mod_cast hd)]
    nlinarith [mul_nonneg (sub_nonneg.2 hr1) (sub_nonneg.2 hd)]
  · rw [max_eq_left (by exact_mod_cast hd)]
    nlinarith [mul_nonneg hr0 (sub_nonneg.2 hd)]

lemma min_le_lerpInterp (p0 p1 : ℚ × ℤ) (temp : ℚ) (ht : p0.1 < p1.1)
    (hl : p0.1 ≤ temp) (hr : temp ≤ p1.1) :
    ((min p0.2 p1.2 : ℤ) : ℚ) ≤ lerpInterp temp p0 p1 := by
  obtain ⟨t0, d0⟩ := p0
  obtain ⟨t1, d1⟩ := p1
  simp only [lerpInterp] at *
  have hpos : (0 : ℚ) < t1 - t0 := by linarith
  have hr0 : 0 ≤ (temp - t0) / (t1 - t0) := div_nonneg (by linarith) (le_of_lt hpos)
  have hr1 : (temp - t0) / (t1 - t0) ≤ 1 := by
    rw [div_le_one hpos]
    linarith
  push_cast
  rcases le_total (d0 : ℚ) (d1 : ℚ) with hd | hd
  · rw [min_eq_left (by exact_mod_cast hd)]
    nlinarith [mul_nonneg hr0 (sub_nonneg.2 hd)]
  · rw [min_eq_right (by exact_mod_cast hd)]
    nlinarith [mul_nonneg (sub_nonneg.2 hr1) (sub_nonneg.2 hd)]

lemma lerpInterp_mono (p0 p1 : ℚ × ℤ) (ht : p0.1 < p1.1) (hd : p0.2 ≤ p1.2)
    {a b : ℚ} (hab : a ≤ b) :
    lerpInterp a p0 p1 ≤ lerpInterp b p0 p1 := by
  have hpos : (0 : ℚ) < p1.1 - p0.1 := by linarith
  have hdd : (0 : ℚ) ≤ (p1.2 : ℚ) - (p0.2 : ℚ) := by
    have : (p0.2 : ℚ) ≤ (p1.2 : ℚ) := by exact_mod_cast hd
    linarith
  unfold lerpInterp
  have h1 : (a - p0.1) / (p1.1 - p0.1) ≤ (b - p0.1) / (p1.1 - p0.1) :=
    (div_le_div_iff_of_pos_right hpos).2 (by linarith)
  exact add_le_add_left (mul_le_mul_of_nonneg_right h1 hdd) _

/-! ### Helper lemmas about `List.getLastD` and chains -/

lemma getLastD_mem {α : Type} : ∀ (rest : List α) (p : α),
    List.getLastD rest p ∈ p :: rest
  | [], p => by simp
  | q :: rest, p => by
      rw [List.getLastD_cons]
      exact List.mem_cons_of_mem p (getLastD_mem rest q)

lemma chain_le_head_lastD : ∀ (rest : List (ℚ × ℤ)) (p : ℚ × ℤ),
    List.Chain' (fun x y : ℚ × ℤ => x.2 ≤ y.2) (p :: rest) →
    p.2 ≤ (List.getLastD rest p).2
  | [], p, _ => by simp
  | q :: rest, p, h => by
      rw [List.getLastD_cons]
      have h1 := (List.chain'_cons.1 h).1
      have h2 := chain_le_head_lastD rest q (List.chain'_cons.1 h).2
      exact le_trans h1 h2

lemma chain_lt_head_le_lastD : ∀ (rest : List (ℚ × ℤ)) (p : ℚ × ℤ),
    List.Chain' (fun x y : ℚ × ℤ => x.1 < y.1) (p :: rest) →
    p.1 ≤ (List.getLastD rest p).1
  | [], p, _ => by simp
  | q :: rest, p, h => by
      rw [List.getLastD_cons]
      have h1 := (List.chain'_cons.1 h).1
      have h2 := chain_lt_head_le_lastD rest q (List.chain'_cons.1 h).2
      exact le_trans (le_of_lt h1) h2

lemma chain_lt_head_lt_lastD : ∀ (rest : List (ℚ × ℤ)) (p : ℚ × ℤ),
    rest ≠ [] →
    List.Chain' (fun x y : ℚ × ℤ => x.1 < y.1) (p :: rest) →
    p.1 < (List.getLastD rest p).1
  | [], _, hne, _ => absurd rfl hne
  | q :: rest, p, _, h => by
      rw [List.getLastD_cons]
      have h1 := (List.chain'_cons.1 h).1
      have h2 := chain_lt_head_le_lastD rest q (List.chain'_cons.1 h).2
      exact lt_of_lt_of_le h1 h2

/-! ### Helper lemmas about `segLoop` -/

lemma segLoop_singleton (temp : ℚ) (p : ℚ × ℤ) (fb : ℤ) :
    segLoop temp [p] fb = fb := by
  simp [segLoop]

lemma segLoop_cons₂ (temp : ℚ) (p q : ℚ × ℤ) (rest : List (ℚ × ℤ)) (fb : ℤ) :
    segLoop temp (p :: q :: rest) fb =
      if p.1 ≤ temp ∧ temp ≤ q.1 then pyRound (lerpInterp temp p q)
      else segLoop temp (q :: rest) fb := by
  simp [segLoop]

/-- With the fallback set to the last duty and duties non-decreasing, the
segment scan never returns less than the head duty. -/
lemma segLoop_ge (temp : ℚ) : ∀ (rest : List (ℚ × ℤ)) (p : ℚ × ℤ),
    List.Chain' (fun x y : ℚ × ℤ => x.1 < y.1) (p :: rest) →
    List.Chain' (fun x y : ℚ × ℤ => x.2 ≤ y.2) (p :: rest) →
    p.2 ≤ segLoop temp (p :: rest) (List.getLastD rest p).2
  | [], p, _, _ => by simp [segLoop]
  | q :: rest, p, hlt, hle => by
      rw [segLoop_cons₂, List.getLastD_cons]
      have ht1 := (List.chain'_cons.1 hlt).1
      have hd1 := (List.chain'_cons.1 hle).1
      split_ifs with h
      · have hb := min_le_lerpInterp p q temp ht1 h.1 h.2
        rw [min_eq_left hd1] at hb
        exact intCast_le_pyRound hb
      · exact le_trans hd1
          (segLoop_ge temp rest q (List.chain'_cons.1 hlt).2 (List.chain'_cons.1 hle).2)

/-- With the fallback set to the last duty and duties non-decreasing, the
segment scan never returns more than the last duty. -/
lemma segLoop_le (temp : ℚ) : ∀ (rest : List (ℚ × ℤ)) (p : ℚ × ℤ),
    List.Chain' (fun x y : ℚ × ℤ => x.1 < y.1) (p :: rest) →
    List.Chain' (fun x y : ℚ × ℤ => x.2 ≤ y.2) (p :: rest) →
    segLoop temp (p :: rest) (List.getLastD rest p).2 ≤ (List.getLastD rest p).2
  | [], p, _, _ => by simp [segLoop]
  | q :: rest, p, hlt, hle => by
      rw [segLoop_cons₂, List.getLastD_cons]
      have ht1 := (List.chain'_cons.1 hlt).1
      have hd1 := (List.chain'_cons.1 hle).1
      split_ifs with h
      · have hb := lerpInterp_le_max p q temp ht1 h.1 h.2
        rw [max_eq_right hd1] at hb
        exact le_trans (pyRound_le_intCast hb)
          (chain_le_head_lastD rest q (List.chain'_cons.1 hle).2)
      · exact segLoop_le temp rest q (List.chain'_cons.1 hlt).2 (List.chain'_cons.1 hle).2

/-- The segment scan, with the fallback set to the last duty, is monotone
in the temperature once the head temperature is passed. -/
lemma segLoop_mono {a b : ℚ} (hab : a ≤ b) :
    ∀ (rest : List (ℚ × ℤ)) (p : ℚ × ℤ),
    List.Chain' (fun x y : ℚ × ℤ => x.1 < y.1) (p :: rest) →
    List.Chain' (fun x y : ℚ × ℤ => x.2 ≤ y.2) (p :: rest) →
    p.1 ≤ a →
    segLoop a (p :: rest) (List.getLastD rest p).2 ≤
      segLoop b (p :: rest) (List.getLastD rest p).2
  | [], p, _, _, _ => by simp [segLoop]
  | q :: rest, p, hlt, hle, hpa => by
      have ht1 := (List.chain'_cons.1 hlt).1
      have hd1 := (List.chain'_cons.1 hle).1
      have hltq := (List.chain'_cons.1 hlt).2
      have hleq := (List.chain'_cons.1 hle).2
      rw [segLoop_cons₂, segLoop_cons₂, List.getLastD_cons]
      by_cases ha1 : a ≤ q.1
      · rw [if_pos ⟨hpa, ha1⟩]
        by_cases hb1 : b ≤ q.1
        · rw [if_pos ⟨le_trans hpa hab, hb1⟩]
          exact pyRound_mono (lerpInterp_mono p q ht1 hd1 hab)
        · rw [if_neg (fun hc => hb1 hc.2)]
          have hup := lerpInterp_le_max p q a ht1 hpa ha1
          rw [max_eq_right hd1] at hup
          exact le_trans (pyRound_le_intCast hup) (segLoop_ge b rest q hltq hleq)
      · have hb1 : ¬b ≤ q.1 := fun hc => ha1 (le_trans hab hc)
        rw [if_neg (fun hc => ha1 hc.2), if_neg (fun hc => hb1 hc.2)]
        exact segLoop_mono hab rest q hltq hleq (le_of_not_le ha1)

/-- Without any duty-monotonicity assumption, the segment scan returns
either the fallback or a value between two duties of the list. -/
lemma segLoop_mem_bounds (temp : ℚ) : ∀ (rest : List (ℚ × ℤ)) (p : ℚ × ℤ) (fb : ℤ),
    List.Chain' (fun x y : ℚ × ℤ => x.1 < y.1) (p :: rest) →
    segLoop temp (p :: rest) fb = fb ∨
      ∃ q1 ∈ p :: rest, ∃ q2 ∈ p :: rest,
        q1.2 ≤ segLoop temp (p :: rest) fb ∧ segLoop temp (p :: rest) fb ≤ q2.2
  | [], p, fb, _ => Or.inl (segLoop_singleton temp p fb)
  | q :: rest, p, fb, hlt => by
      have ht1 := (List.chain'_cons.1 hlt).1
      have hltq := (List.chain'_cons.1 hlt).2
      rw [segLoop_cons₂]
      split_ifs with h
      · right
        have hlo := min_le_lerpInterp p q temp ht1 h.1 h.2
        have hhi := lerpInterp_le_max p q temp ht1 h.1 h.2
        rcases le_total p.2 q.2 with hd | hd
        · refine ⟨p, by simp, q, by simp, ?_, ?_⟩
          · rw [min_eq_left hd] at hlo
            exact intCast_le_pyRound hlo
          · rw [max_eq_right hd] at hhi
            exact pyRound_le_intCast hhi
        · refine ⟨q, by simp, p, by simp, ?_, ?_⟩
          · rw [min_eq_right hd] at hlo
            exact intCast_le_pyRound hlo
          · rw [max_eq_left hd] at hhi
            exact pyRound_le_intCast hhi
      · rcases segLoop_mem_bounds temp rest q fb hltq with hc | ⟨q1, hq1, q2, hq2, h1, h2⟩
        · exact Or.inl hc
        · exact Or.inr ⟨q1, List.mem_cons_of_mem p hq1, q2, List.mem_cons_of_mem p hq2, h1, h2⟩

/-- For a temperature strictly inside the curve's temperature range the
segment scan never reaches the fallback: its result does not depend on it. -/
lemma segLoop_fb_irrel (temp : ℚ) : ∀ (rest : List (ℚ × ℤ)) (p : ℚ × ℤ),
    List.Chain' (fun x y : ℚ × ℤ => x.1 < y.1) (p :: rest) →
    p.1 < temp → temp < (List.getLastD rest p).1 →
    ∀ fb1 fb2 : ℤ, segLoop temp (p :: rest) fb1 = segLoop temp (p :: rest) fb2
  | [], p, _, h1, h2, fb1, fb2 => by
      simp only [List.getLastD_nil] at h2
      exact absurd (lt_trans h1 h2) (lt_irrefl _)
  | q :: rest, p, hlt, h1, h2, fb1, fb2 => by
      rw [List.getLastD_cons] at h2
      rw [segLoop_cons₂, segLoop_cons₂]
      split_ifs with h
      · rfl
      · have hq1 : q.1 < temp := by
          rcases not_and_or.1 h with hc | hc
          · exact absurd (le_of_lt h1) hc
          · exact lt_of_not_le hc
        exact segLoop_fb_irrel temp rest q (List.chain'_cons.1 hlt).2 hq1 h2 fb1 fb2

/-- For a temperature strictly inside the curve's temperature range the
segment scan stops at a bracketing adjacent segment and interpolates there. -/
lemma segLoop_finds (temp : ℚ) : ∀ (rest : List (ℚ × ℤ)) (p : ℚ × ℤ) (fb : ℤ),
    List.Chain' (fun x y : ℚ × ℤ => x.1 < y.1) (p :: rest) →
    p.1 ≤ temp → temp < (List.getLastD rest p).1 →
    ∃ l1 s0 s1 l2, p :: rest = l1 ++ s0 :: s1 :: l2 ∧ s0.1 ≤ temp ∧ temp ≤ s1.1 ∧
      segLoop temp (p :: rest) fb = pyRound (lerpInterp temp s0 s1)
  | [], p, fb, _, h1, h2 => by
      simp only [List.getLastD_nil] at h2
      exact absurd (lt_of_le_of_lt h1 h2) (lt_irrefl _)
  | q :: rest, p, fb, hlt, h1, h2 => by
      rw [List.getLastD_cons] at h2
      rw [segLoop_cons₂]
      by_cases h : temp ≤ q.1
      · refine ⟨[], p, q, rest, rfl, h1, h, ?_⟩
        rw [if_pos ⟨h1, h⟩]
      · rw [if_neg (fun hc => h hc.2)]
        obtain ⟨l1, s0, s1, l2, heq, hs0, hs1, hval⟩ :=
          segLoop_finds temp rest q fb (List.chain'_cons.1 hlt).2 (le_of_not_le h) h2
        exact ⟨p :: l1, s0, s1, l2, by rw [List.cons_append, ← heq], hs0, hs1, hval⟩

/-! ### Helper lemmas about `lerp_curve` -/

lemma lerp_curve_cons (temp : ℚ) (p : ℚ × ℤ) (rest : List (ℚ × ℤ)) :
    lerp_curve temp (p :: rest) =
      if temp ≤ p.1 then some p.2
      else if (List.getLastD rest p).1 ≤ temp then some (List.getLastD rest p).2
      else some (segLoop temp (p :: rest) (List.getLastD rest p).2) := by
  rw [lerp_curve]

lemma lerp_ge_first (temp : ℚ) (p : ℚ × ℤ) (rest : List (ℚ × ℤ)) (d : ℤ)
    (hsort : List.Chain' (fun x y : ℚ × ℤ => x.1 < y.1) (p :: rest))
    (hduty : List.Chain' (fun x y : ℚ × ℤ => x.2 ≤ y.2) (p :: rest))
    (h : lerp_curve temp (p :: rest) = some d) :
    p.2 ≤ d := by
  rw [lerp_curve_cons] at h
  split_ifs at h with h1 h2
  · exact le_of_eq (Option.some.inj h)
  · rw [← Option.some.inj h]
    exact chain_le_head_lastD rest p hduty
  · rw [← Option.some.inj h]
    exact segLoop_ge temp rest p hsort hduty

/-! ### Claim theorems about curve evaluation -/

/-- C3: for every curve with at least one point and strictly increasing
temperatures, a temperature at or below the first point's temperature
evaluates to the first point's duty and a temperature at or beyond the
last point's temperature evaluates to the last point's duty; on the
default CPU curve, eval 30 = 20, eval 90 = 100, eval 40 = 20,
eval 85 = 100. -/
theorem lerp_curve_endpoint_clamp (p : ℚ × ℤ) (rest : List (ℚ × ℤ))
    (hsort : List.Chain' (fun x y : ℚ × ℤ => x.1 < y.1) (p :: rest)) (temp : ℚ) :
    (temp ≤ p.1 → lerp_curve temp (p :: rest) = some p.2) ∧
    ((List.getLastD rest p).1 ≤ temp →
       lerp_curve temp (p :: rest) = some (List.getLastD rest p).2) ∧
    lerp_curve 30 [((40 : ℚ), (20 : ℤ)), (55, 35), (65, 55), (75, 75), (85, 100)] = some 20 ∧
    lerp_curve 90 [((40 : ℚ), (20 : ℤ)), (55, 35), (65, 55), (75, 75), (85, 100)] = some 100 ∧
    lerp_curve 40 [((40 : ℚ), (20 : ℤ)), (55, 35), (65, 55), (75, 75), (85, 100)] = some 20 ∧
    lerp_curve 85 [((40 : ℚ), (20 : ℤ)), (55, 35), (65, 55), (75, 75), (85, 100)] = some 100 := by
  refine ⟨?_, ?_, by decide, by decide, by decide, by decide⟩
  · intro h
    rw [lerp_curve_cons, if_pos h]
  · intro h
    rw [lerp_curve_cons]
    by_cases h1 : temp ≤ p.1
    · rw [if_pos h1]
      rcases rest with _ | ⟨q, rs⟩
      · simp
      · exfalso
        have hlt := chain_lt_head_lt_lastD (q :: rs) p (by simp) hsort
        exact absurd (lt_of_lt_of_le hlt (le_trans h h1)) (lt_irrefl _)
    · rw [if_neg h1, if_pos h]

/-- Witness for C3 at the curve [(40,20),(55,35)] and temperature 30. -/
theorem lerp_curve_endpoint_clamp_witness :
    List.Chain' (fun x y : ℚ × ℤ => x.1 < y.1) [((40 : ℚ), (20 : ℤ)), (55, 35)] ∧
    ((30 : ℚ) ≤ ((40 : ℚ), (20 : ℤ)).1 →
       lerp_curve 30 [((40 : ℚ), (20 : ℤ)), (55, 35)] = some ((40 : ℚ), (20 : ℤ)).2) :=
  ⟨by norm_num [List.chain'_cons, List.chain'_singleton],
   (lerp_curve_endpoint_clamp ((40 : ℚ), (20 : ℤ)) [(55, 35)]
     (by norm_num [List.chain'_cons, List.chain'_singleton]) 30).1⟩

/-- C4: for every curve with strictly increasing temperatures and
non-decreasing duties, curve evaluation is monotone non-decreasing in the
temperature. -/
theorem lerp_curve_monotone (p : ℚ × ℤ) (rest : List (ℚ × ℤ))
    (hsort : List.Chain' (fun x y : ℚ × ℤ => x.1 < y.1) (p :: rest))
    (hduty : List.Chain' (fun x y : ℚ × ℤ => x.2 ≤ y.2) (p :: rest))
    (a b : ℚ) (hab : a ≤ b) (da db : ℤ)
    (ha : lerp_curve a (p :: rest) = some da)
    (hb : lerp_curve b (p :: rest) = some db) :
    da ≤ db := by
  by_cases ha1 : a ≤ p.1
  · have hda : da = p.2 := by
      rw [lerp_curve_cons, if_pos ha1] at ha
      exact (Option.some.inj ha).symm
    rw [hda]
    exact lerp_ge_first b p rest db hsort hduty hb
  · have hb1 : ¬b ≤ p.1 := fun hc => ha1 (le_trans hab hc)
    by_cases ha2 : (List.getLastD rest p).1 ≤ a
    · have hda : da = (List.getLastD rest p).2 := by
        rw [lerp_curve_cons, if_neg ha1, if_pos ha2] at ha
        exact (Option.some.inj ha).symm
      have hdb : db = (List.getLastD rest p).2 := by
        rw [lerp_curve_cons, if_neg hb1, if_pos (le_trans ha2 hab)] at hb
        exact (Option.some.inj hb).symm
      rw [hda, hdb]
    · have hda : da = segLoop a (p :: rest) (List.getLastD rest p).2 := by
        rw [lerp_curve_cons, if_neg ha1, if_neg ha2] at ha
        exact (Option.some.inj ha).symm
      by_cases hb2 : (List.getLastD rest p).1 ≤ b
      · have hdb : db = (List.getLastD rest p).2 := by
          rw [lerp_curve_cons, if_neg hb1, if_pos hb2] at hb
          exact (Option.some.inj hb).symm
        rw [hda, hdb]
        exact segLoop_le a rest p hsort hduty
      · have hdb : db = segLoop b (p :: rest) (List.getLastD rest p).2 := by
          rw [lerp_curve_cons, if_neg hb1, if_neg hb2] at hb
          exact (Option.some.inj hb).symm
        rw [hda, hdb]
        exact segLoop_mono hab rest p hsort hduty (le_of_not_le ha1)

/-- Witness for C4 at the curve [(40,20),(55,35)], temperatures 30 ≤ 90. -/
theorem lerp_curve_monotone_witness :
    List.Chain' (fun x y : ℚ × ℤ => x.1 < y.1) [((40 : ℚ), (20 : ℤ)), (55, 35)] ∧
    List.Chain' (fun x y : ℚ × ℤ => x.2 ≤ y.2) [((40 : ℚ), (20 : ℤ)), (55, 35)] ∧
    (30 : ℚ) ≤ 90 ∧
    lerp_curve 30 [((40 : ℚ), (20 : ℤ)), (55, 35)] = some 20 ∧
    lerp_curve 90 [((40 : ℚ), (20 : ℤ)), (55, 35)] = some 35 ∧
    (20 : ℤ) ≤ 35 :=
  ⟨by norm_num [List.chain'_cons, List.chain'_singleton],
   by norm_num [List.chain'_cons, List.chain'_singleton],
   by norm_num, by decide, by decide,
   lerp_curve_monotone ((40 : ℚ), (20 : ℤ)) [(55, 35)]
     (by norm_num [List.chain'_cons, List.chain'_singleton])
     (by norm_num [List.chain'_cons, List.chain'_singleton])
     30 90 (by norm_num) 20 35 (by decide) (by decide)⟩

/-- C10: on every curve with at least one point and strictly increasing
temperatures, evaluation is total (returns `some` integer for every
temperature), its result lies between two of the curve's duties (hence
between the smallest and the largest duty among the points), and for
temperatures strictly inside the curve's range the trailing fallback
return is never the path taken: the scan's result is independent of the
fallback value. -/
theorem lerp_curve_total_bounded (p : ℚ × ℤ) (rest : List (ℚ × ℤ))
    (hsort : List.Chain' (fun x y : ℚ × ℤ => x.1 < y.1) (p :: rest)) (temp : ℚ) :
    (∃ d, lerp_curve temp (p :: rest) = some d ∧
       (∃ q1 ∈ p :: rest, q1.2 ≤ d) ∧ (∃ q2 ∈ p :: rest, d ≤ q2.2)) ∧
    (p.1 < temp → temp < (List.getLastD rest p).1 →
       ∀ fb1 fb2 : ℤ, segLoop temp (p :: rest) fb1 = segLoop temp (p :: rest) fb2) := by
  constructor
  · rw [lerp_curve_cons]
    split_ifs with h1 h2
    · exact ⟨p.2, rfl, ⟨p, List.mem_cons_self p rest, le_refl _⟩,
        ⟨p, List.mem_cons_self p rest, le_refl _⟩⟩
    · exact ⟨(List.getLastD rest p).2, rfl,
        ⟨List.getLastD rest p, getLastD_mem rest p, le_refl _⟩,
        ⟨List.getLastD rest p, getLastD_mem rest p, le_refl _⟩⟩
    · rcases segLoop_mem_bounds temp rest p (List.getLastD rest p).2 hsort with
        hc | ⟨q1, hq1, q2, hq2, hl, hr⟩
      · refine ⟨_, rfl, ⟨List.getLastD rest p, getLastD_mem rest p, ?_⟩,
          ⟨List.getLastD rest p, getLastD_mem rest p, ?_⟩⟩ <;> rw [hc]
      · exact ⟨_, rfl, ⟨q1, hq1, hl⟩, ⟨q2, hq2, hr⟩⟩
  · exact segLoop_fb_irrel temp rest p hsort

/-- Witness for C10 at the curve [(40,20),(55,35)] and temperature 47. -/
theorem lerp_curve_total_bounded_witness :
    List.Chain' (fun x y : ℚ × ℤ => x.1 < y.1) [((40 : ℚ), (20 : ℤ)), (55, 35)] ∧
    ((∃ d, lerp_curve 47 [((40 : ℚ), (20 : ℤ)), (55, 35)] = some d ∧
        (∃ q1 ∈ [((40 : ℚ), (20 : ℤ)), (55, 35)], q1.2 ≤ d) ∧
        (∃ q2 ∈ [((40 : ℚ), (20 : ℤ)), (55, 35)], d ≤ q2.2)) ∧
     (((40 : ℚ), (20 : ℤ)).1 < 47 →
        (47 : ℚ) < (List.getLastD [((55 : ℚ), (35 : ℤ))] ((40 : ℚ), (20 : ℤ))).1 →
        ∀ fb1 fb2 : ℤ,
          segLoop 47 [((40 : ℚ), (20 : ℤ)), (55, 35)] fb1 =
            segLoop 47 [((40 : ℚ), (20 : ℤ)), (55, 35)] fb2)) :=
  ⟨by norm_num [List.chain'_cons, List.chain'_singleton],
   lerp_curve_total_bounded ((40 : ℚ), (20 : ℤ)) [(55, 35)]
     (by norm_num [List.chain'_cons, List.chain'_singleton]) 47⟩

/-- C2 (amended): for every curve with strictly increasing temperatures
and every temperature strictly between the first and last point
temperatures, the evaluator stops at a bracketing adjacent segment
[t0,d0]-[t1,d1] with t0 ≤ temperature ≤ t1 and returns the interpolant
`d0 + (temperature-t0)/(t1-t0)*(d1-d0)` rounded to the nearest integer
with exact halves rounded to even (Python's banker's rounding); in
particular eval(47.5) on segment (40,20)-(55,35) yields 28 (28 is even). -/
theorem lerp_curve_interior_interp (p : ℚ × ℤ) (rest : List (ℚ × ℤ)) (temp : ℚ)
    (hsort : List.Chain' (fun x y : ℚ × ℤ => x.1 < y.1) (p :: rest))
    (h1 : p.1 < temp) (h2 : temp < (List.getLastD rest p).1) :
    (∃ l1 s0 s1 l2, p :: rest = l1 ++ s0 :: s1 :: l2 ∧ s0.1 ≤ temp ∧ temp ≤ s1.1 ∧
       lerp_curve temp (p :: rest) = some (pyRound (lerpInterp temp s0 s1))) ∧
    lerp_curve (95 / 2) [((40 : ℚ), (20 : ℤ)), (55, 35)] = some 28 := by
  constructor
  · obtain ⟨l1, s0, s1, l2, heq, hs0, hs1, hval⟩ :=
      segLoop_finds temp rest p (List.getLastD rest p).2 hsort (le_of_lt h1) h2
    refine ⟨l1, s0, s1, l2, heq, hs0, hs1, ?_⟩
    rw [lerp_curve_cons, if_neg (not_le.2 h1), if_neg (not_le.2 h2), hval]
  · norm_num [lerp_curve, segLoop, List.getLastD, lerpInterp, pyRound]

/-- Witness for C2 (amended) at the curve [(40,20),(55,35)], temperature 47. -/
theorem lerp_curve_interior_interp_witness :
    List.Chain' (fun x y : ℚ × ℤ => x.1 < y.1) [((40 : ℚ), (20 : ℤ)), (55, 35)] ∧
    ((40 : ℚ), (20 : ℤ)).1 < 47 ∧
    (47 : ℚ) < (List.getLastD [((55 : ℚ), (35 : ℤ))] ((40 : ℚ), (20 : ℤ))).1 ∧
    ((∃ l1 s0 s1 l2,
        ([((40 : ℚ), (20 : ℤ)), (55, 35)] : List (ℚ × ℤ)) = l1 ++ s0 :: s1 :: l2 ∧
        s0.1 ≤ 47 ∧ (47 : ℚ) ≤ s1.1 ∧
        lerp_curve 47 [((40 : ℚ), (20 : ℤ)), (55, 35)] =
          some (pyRound (lerpInterp 47 s0 s1))) ∧
     lerp_curve (95 / 2) [((40 : ℚ), (20 : ℤ)), (55, 35)] = some 28) :=
  ⟨by norm_num [List.chain'_cons, List.chain'_singleton],
   by norm_num, by norm_num [List.getLastD],
   lerp_curve_interior_interp ((40 : ℚ), (20 : ℤ)) [(55, 35)] 47
     (by norm_num [List.chain'_cons, List.chain'_singleton])
     (by norm_num) (by norm_num [List.getLastD])⟩

/-- C2 counterexample: on the curve [(0,0),(2,1)] at temperature 1 the
code returns 0 (the interpolant 1/2 ties to even), while rounding the
same interpolant half away from zero would give 1. -/
theorem lerp_curve_round_counterexample :
    lerp_curve 1 [((0 : ℚ), (0 : ℤ)), (2, 1)] = some 0 ∧
    roundHalfAway (lerpInterp 1 ((0 : ℚ), (0 : ℤ)) (2, 1)) = 1 ∧
    (0 : ℤ) ≠ 1 := by
  refine ⟨?_, ?_, by decide⟩
  · norm_num [lerp_curve, segLoop, List.getLastD, lerpInterp, pyRound]
  · norm_num [roundHalfAway, lerpInterp]

/-! ### Helper lemmas about `checkIncreasing` and `parse_curve` -/

lemma checkInc_some_iff : ∀ (l : List (ℚ × ℤ)) (t : ℚ),
    checkIncreasing (some t) l = true ↔
      ((∀ x ∈ l.head?, t < x.1) ∧
        List.Chain' (fun x y : ℚ × ℤ => x.1 < y.1) l)
  | [], t => by simp [checkIncreasing]
  | p :: rest, t => by
      simp only [checkIncreasing]
      split_ifs with h
      · simp only [Bool.false_eq_true, false_iff, not_and]
        intro hh
        have := hh p (by simp)
        intro _
        linarith
      · have ht : t < p.1 := lt_of_not_le h
        rw [checkInc_some_iff rest p.1]
        simp only [List.head?_cons]
        constructor
        · rintro ⟨hh, hc⟩
          exact ⟨by simpa using ht, List.chain'_cons'.2 ⟨hh, hc⟩⟩
        · rintro ⟨-, hc⟩
          exact ⟨(List.chain'_cons'.1 hc).1, (List.chain'_cons'.1 hc).2⟩

lemma checkInc_none_iff (l : List (ℚ × ℤ)) :
    checkIncreasing none l = true ↔
      List.Chain' (fun x y : ℚ × ℤ => x.1 < y.1) l := by
  cases l with
  | nil => simp [checkIncreasing]
  | cons p rest =>
      simp only [checkIncreasing]
      rw [checkInc_some_iff rest p.1, List.chain'_cons']

/-- C5: curve construction succeeds exactly on nonempty point lists with
strictly increasing temperatures, returns the points unchanged and in
order, and rejects [(50,10),(50,20)], [(60,10),(50,20)] and []. -/
theorem parse_curve_spec (raw : List (ℚ × ℤ)) :
    ((∃ l, parse_curve raw = Except.ok l) ↔
       (raw ≠ [] ∧ List.Chain' (fun x y : ℚ × ℤ => x.1 < y.1) raw)) ∧
    (∀ l, parse_curve raw = Except.ok l → l = raw) ∧
    parse_curve [((50 : ℚ), (10 : ℤ)), (50, 20)] =
      Except.error "curve temperatures must be strictly increasing" ∧
    parse_curve [((60 : ℚ), (10 : ℤ)), (50, 20)] =
      Except.error "curve temperatures must be strictly increasing" ∧
    parse_curve ([] : List (ℚ × ℤ)) = Except.error "curve must not be empty" := by
  refine ⟨?_, ?_, by rfl, by rfl, by rfl⟩
  · unfold parse_curve
    by_cases hemp : raw.isEmpty
    · rw [if_pos hemp]
      simp only [List.isEmpty_iff] at hemp
      simp [hemp]
    · rw [if_neg hemp]
      simp only [List.isEmpty_iff] at hemp
      by_cases hchk : checkIncreasing none raw
      · rw [if_pos hchk]
        rw [checkInc_none_iff] at hchk
        simp [hemp, hchk]
      · rw [if_neg hchk]
        simp only [Bool.not_eq_true] at hchk
        constructor
        · rintro ⟨l, hl⟩
          cases hl
        · rintro ⟨-, hc⟩
          rw [← checkInc_none_iff] at hc
          rw [hchk] at hc
          cases hc
  · intro l hl
    unfold parse_curve at hl
    split_ifs at hl
    cases hl
    rfl

/-- Witness for C5 at the well-formed input [(40,20),(55,35)]. -/
theorem parse_curve_spec_witness :
    (([((40 : ℚ), (20 : ℤ)), (55, 35)] : List (ℚ × ℤ)) ≠ [] ∧
      List.Chain' (fun x y : ℚ × ℤ => x.1 < y.1) [((40 : ℚ), (20 : ℤ)), (55, 35)]) ∧
    (∃ l, parse_curve [((40 : ℚ), (20 : ℤ)), (55, 35)] = Except.ok l) :=
  ⟨⟨by simp, by norm_num [List.chain'_cons, List.chain'_singleton]⟩,
   (parse_curve_spec [((40 : ℚ), (20 : ℤ)), (55, 35)]).1.2
     ⟨by simp, by norm_num [List.chain'_cons, List.chain'_singleton]⟩⟩

/-! ### Helper lemmas about `collectTemps` and `max_temp_in_hwmons` -/

lemma foldl_append_bind {α β : Type} (f : α → List β) :
    ∀ (l : List α) (init : List β),
      l.foldl (fun acc a => acc ++ f a) init = init ++ l.flatMap f
  | [], init => by simp
  | a :: l, init => by
      simp only [List.foldl_cons, List.flatMap_cons]
      rw [foldl_append_bind f l (init ++ f a), List.append_assoc]

lemma collectTemps_eq (hwmons : List Hwmon) :
    collectTemps hwmons =
      (hwmons.flatMap fun h => h.inputs.filterMap id).map read_temp_millic := by
  unfold collectTemps
  rw [foldl_append_bind (fun h : Hwmon => h.inputs.filterMap fun r => r.map read_temp_millic) hwmons []]
  rw [List.nil_append, List.map_flatMap]
  congr 1
  funext h
  rw [List.map_filterMap]
  simp

lemma foldl_max_mem : ∀ (ts : List ℚ) (t : ℚ), ts.foldl max t ∈ t :: ts
  | [], t => by simp
  | s :: ts, t => by
      simp only [List.foldl_cons]
      rcases List.mem_cons.1 (foldl_max_mem ts (max t s)) with h | h
      · rcases max_choice t s with hc | hc
        · rw [h, hc]
          exact List.mem_cons_self _ _
        · rw [h, hc]
          exact List.mem_cons_of_mem _ (List.mem_cons_self _ _)
      · exact List.mem_cons_of_mem _ (List.mem_cons_of_mem _ h)

lemma le_foldl_max : ∀ (ts : List ℚ) (t x : ℚ), x ∈ t :: ts → x ≤ ts.foldl max t
  | [], t, x, hx => by
      simp only [List.mem_singleton] at hx
      simp [hx]
  | s :: ts, t, x, hx => by
      simp only [List.foldl_cons]
      rcases List.mem_cons.1 hx with rfl | hx'
      · exact le_trans (le_max_left x s)
          (le_foldl_max ts (max x s) _ (List.mem_cons_self _ _))
      · rcases List.mem_cons.1 hx' with rfl | hx''
        · exact le_trans (le_max_right t x)
            (le_foldl_max ts (max t x) _ (List.mem_cons_self _ _))
        · exact le_foldl_max ts (max t s) x (List.mem_cons_of_mem _ hx'')

/-- C6: the sampler considers every temperature input of every source in
the group, skipping unreadable or unparsable inputs; each parsed value is
the raw millidegree integer divided by 1000; it succeeds exactly when at
least one value was parsed, and then returns the maximum of the parsed
values. -/
theorem max_temp_in_hwmons_spec (hwmons : List Hwmon) :
    collectTemps hwmons =
      (hwmons.flatMap fun h => h.inputs.filterMap id).map read_temp_millic ∧
    (∀ r : ℤ, read_temp_millic r = (r : ℚ) / 1000) ∧
    ((∃ m, max_temp_in_hwmons hwmons = Except.ok m) ↔ collectTemps hwmons ≠ []) ∧
    (∀ m, max_temp_in_hwmons hwmons = Except.ok m →
       m ∈ collectTemps hwmons ∧ ∀ x ∈ collectTemps hwmons, x ≤ m) := by
  refine ⟨collectTemps_eq hwmons, fun r => rfl, ?_, ?_⟩
  · unfold max_temp_in_hwmons
    cases hc : collectTemps hwmons with
    | nil => simp
    | cons t ts => simp
  · intro m hm
    unfold max_temp_in_hwmons at hm
    cases hc : collectTemps hwmons with
    | nil =>
        rw [hc] at hm
        cases hm
    | cons t ts =>
        rw [hc] at hm
        have hm' : ts.foldl max t = m := Except.ok.inj hm
        rw [← hm']
        exact ⟨foldl_max_mem ts t, fun x hx => le_foldl_max ts t x hx⟩

/-- Witness for C6: one source with one readable input of 47000 mC and one
unreadable input; the sampler returns 47 °C. -/
theorem max_temp_in_hwmons_spec_witness :
    max_temp_in_hwmons [Hwmon.mk (some "k10temp") [some 47000, none]] =
      Except.ok 47 ∧
    (47 : ℚ) ∈ collectTemps [Hwmon.mk (some "k10temp") [some 47000, none]] ∧
    ∀ x ∈ collectTemps [Hwmon.mk (some "k10temp") [some 47000, none]], x ≤ 47 := by
  have hct : collectTemps [Hwmon.mk (some "k10temp") [some 47000, none]] = [47] := by
    norm_num [collectTemps, read_temp_millic, List.filterMap_cons]
  have hval : max_temp_in_hwmons [Hwmon.mk (some "k10temp") [some 47000, none]] =
      Except.ok 47 := by
    unfold max_temp_in_hwmons
    rw [hct]
    rfl
  exact ⟨hval, (max_temp_in_hwmons_spec [Hwmon.mk (some "k10temp") [some 47000, none]]).2.2.2 47 hval⟩

/-! ### Helper lemmas about the dedup fold of `resolve_hwmons` -/

lemma resolve_eq_dedupFold (sources : List (String × Hwmon)) :
    ∀ (names : List String) (init : List String),
      names.foldl
        (fun dedup name =>
          (find_hwmons_by_name sources name).foldl
            (fun d h => if h ∈ d then d else d ++ [h]) dedup)
        init =
      (names.flatMap (find_hwmons_by_name sources)).foldl
        (fun d h => if h ∈ d then d else d ++ [h]) init
  | [], init => by simp
  | n :: names, init => by
      simp only [List.foldl_cons, List.flatMap_cons, List.foldl_append]
      exact resolve_eq_dedupFold sources names _

lemma mem_dedupFold : ∀ (l init : List String) (x : String),
    x ∈ l.foldl (fun d h => if h ∈ d then d else d ++ [h]) init ↔
      x ∈ init ∨ x ∈ l
  | [], init, x => by simp
  | a :: l, init, x => by
      simp only [List.foldl_cons]
      by_cases h : a ∈ init
      · rw [if_pos h, mem_dedupFold l init x]
        constructor
        · rintro (hx | hx)
          · exact Or.inl hx
          · exact Or.inr (List.mem_cons_of_mem a hx)
        · rintro (hx | hx)
          · exact Or.inl hx
          · rcases List.mem_cons.1 hx with rfl | hx'
            · exact Or.inl h
            · exact Or.inr hx'
      · rw [if_neg h, mem_dedupFold l (init ++ [a]) x]
        simp only [List.mem_append, List.mem_singleton, List.mem_cons]
        tauto

lemma nodup_dedupFold : ∀ (l init : List String), init.Nodup →
    (l.foldl (fun d h => if h ∈ d then d else d ++ [h]) init).Nodup
  | [], _, h => h
  | a :: l, init, h => by
      simp only [List.foldl_cons]
      by_cases ha : a ∈ init
      · rw [if_pos ha]
        exact nodup_dedupFold l init h
      · rw [if_neg ha]
        refine nodup_dedupFold l _ ?_
        rw [List.nodup_append]
        exact ⟨h, List.nodup_singleton a, by simpa using ha⟩

lemma sublist_dedupFold : ∀ (l init : List String),
    ∃ s, l.foldl (fun d h => if h ∈ d then d else d ++ [h]) init = init ++ s ∧
      s.Sublist l
  | [], init => ⟨[], by simp, List.nil_sublist []⟩
  | a :: l, init => by
      simp only [List.foldl_cons]
      by_cases ha : a ∈ init
      · rw [if_pos ha]
        obtain ⟨s, hs, hsub⟩ := sublist_dedupFold l init
        exact ⟨s, hs, hsub.trans (List.sublist_cons_self a l)⟩
      · rw [if_neg ha]
        obtain ⟨s, hs, hsub⟩ := sublist_dedupFold l (init ++ [a])
        refine ⟨a :: s, ?_, hsub.cons₂ a⟩
        rw [hs, List.append_assoc]
        rfl

/-- C7: sensor resolution equals the keep-first deduplication of the
concatenated per-name match lists; its result has no duplicates, keeps the
first-seen relative order (it is a sublist of the concatenated scan), and
contains a source exactly when some requested name matched it — names that
match nothing contribute nothing and cause no error. -/
theorem resolve_hwmons_spec (sources : List (String × Hwmon)) (names : List String) :
    resolve_hwmons sources names =
      dedupFirstSeen (names.flatMap (find_hwmons_by_name sources)) ∧
    (resolve_hwmons sources names).Nodup ∧
    (∀ x, x ∈ resolve_hwmons sources names ↔
       ∃ n ∈ names, x ∈ find_hwmons_by_name sources n) ∧
    (resolve_hwmons sources names).Sublist
      (names.flatMap (find_hwmons_by_name sources)) := by
  have heq : resolve_hwmons sources names =
      dedupFirstSeen (names.flatMap (find_hwmons_by_name sources)) := by
    unfold resolve_hwmons dedupFirstSeen
    exact resolve_eq_dedupFold sources names []
  refine ⟨heq, ?_, ?_, ?_⟩
  · rw [heq]
    exact nodup_dedupFold _ [] List.nodup_nil
  · intro x
    rw [heq]
    unfold dedupFirstSeen
    rw [mem_dedupFold]
    simp [List.mem_flatMap]
  · rw [heq]
    unfold dedupFirstSeen
    obtain ⟨s, hs, hsub⟩ := sublist_dedupFold (names.flatMap (find_hwmons_by_name sources)) []
    rw [hs, List.nil_append]
    exact hsub

/-! ### Claim theorems about startup and clamping -/

/-- C8: at startup, an empty memory group with fallback enabled (and a
nonempty CPU group) reuses the CPU group for the memory channel and emits
the warning; an empty memory group with fallback disabled, or an empty CPU
group, is a fatal startup error (`SystemExit`, non-zero exit before the
loop runs). -/
theorem startup_hwmons_spec (cpu mem : List String) (fallback : Bool) :
    (mem = [] → fallback = true → cpu ≠ [] →
       startup_hwmons cpu mem fallback = Except.ok (cpu, cpu, true)) ∧
    (mem = [] → fallback = false →
       ∃ e, startup_hwmons cpu mem fallback = Except.error e) ∧
    (cpu = [] → ∃ e, startup_hwmons cpu mem fallback = Except.error e) := by
  refine ⟨?_, ?_, ?_⟩
  · rintro rfl rfl hcpu
    rcases cpu with _ | ⟨c, cs⟩
    · exact absurd rfl hcpu
    · rfl
  · rintro rfl rfl
    rcases cpu with _ | ⟨c, cs⟩
    · exact ⟨"CPU hwmon not found", rfl⟩
    · exact ⟨"MEM hwmon not found", rfl⟩
  · rintro rfl
    exact ⟨"CPU hwmon not found", rfl⟩

/-- Witness for C8: CPU group ["hwmon0"], empty memory group, fallback on. -/
theorem startup_hwmons_spec_witness :
    (([] : List String) = [] ∧ true = true ∧ ["hwmon0"] ≠ ([] : List String)) ∧
    startup_hwmons ["hwmon0"] [] true = Except.ok (["hwmon0"], ["hwmon0"], true) :=
  ⟨⟨rfl, rfl, by simp⟩,
   (startup_hwmons_spec ["hwmon0"] [] true).1 rfl rfl (by simp)⟩

lemma clamp_duty_idem (d lo hi : ℤ) :
    clamp_duty (clamp_duty d lo hi) lo hi = clamp_duty d lo hi := by
  unfold clamp_duty
  omega

lemma failsafeWrites_val (cfg : Config) (env : TickEnv) (w : Nat × ℤ)
    (hw : w ∈ failsafeWrites cfg env) :
    w.2 = write_duty_value cfg.failsafe_duty cfg.min_duty cfg.max_duty := by
  unfold failsafeWrites at hw
  split_ifs at hw <;> simp only [List.mem_cons, List.mem_singleton, List.not_mem_nil] at hw
  · rcases hw with rfl | rfl | hw
    · rfl
    · rfl
    · cases hw
  · rcases hw with rfl | hw
    · rfl
    · cases hw

lemma tick_write_val (cfg : Config) (env : TickEnv) (w : Nat × ℤ)
    (hw : w ∈ (tick cfg env).1) :
    ∃ x, w.2 = write_duty_value x cfg.min_duty cfg.max_duty := by
  unfold tick at hw
  cases h1 : env.cpuSample with
  | error e1 =>
      rw [h1] at hw
      exact ⟨cfg.failsafe_duty, failsafeWrites_val cfg env w hw⟩
  | ok ct =>
      rw [h1] at hw
      cases h2 : env.memSample with
      | error e2 =>
          rw [h2] at hw
          exact ⟨cfg.failsafe_duty, failsafeWrites_val cfg env w hw⟩
      | ok mt =>
          rw [h2] at hw
          simp only [] at hw
          cases h3 : lerp_curve ct cfg.cpu_curve with
          | none =>
              rw [h3] at hw
              exact ⟨cfg.failsafe_duty, failsafeWrites_val cfg env w hw⟩
          | some cd =>
              rw [h3] at hw
              cases h4 : lerp_curve mt cfg.mem_curve with
              | none =>
                  rw [h4] at hw
                  exact ⟨cfg.failsafe_duty, failsafeWrites_val cfg env w hw⟩
              | some md =>
                  rw [h4] at hw
                  simp only [] at hw
                  by_cases h5 : env.write1Ok
                  · rw [if_pos h5] at hw
                    by_cases h6 : env.write2Ok
                    · rw [if_pos h6] at hw
                      simp only [List.mem_cons, List.mem_singleton,
                        List.not_mem_nil] at hw
                      rcases hw with rfl | rfl | hw
                      · exact ⟨cd, rfl⟩
                      · exact ⟨md, rfl⟩
                      · cases hw
                    · rw [if_neg h6] at hw
                      simp only [List.mem_cons] at hw
                      rcases hw with rfl | hw
                      · exact ⟨cd, rfl⟩
                      · exact ⟨cfg.failsafe_duty, failsafeWrites_val cfg env w hw⟩
                  · rw [if_neg h5] at hw
                    exact ⟨cfg.failsafe_duty, failsafeWrites_val cfg env w hw⟩

/-- C9: the clamp equals `max(min_duty, min(duty, max_duty))`, is
idempotent, lands in `[min_duty, max_duty]` whenever the bounds are
ordered, and every value an actuator write carries — normal or failsafe —
is the clamp of some duty (so it is a fixed point of the clamp). -/
theorem clamp_duty_spec (d lo hi : ℤ) :
    clamp_duty d lo hi = max lo (min d hi) ∧
    clamp_duty (clamp_duty d lo hi) lo hi = clamp_duty d lo hi ∧
    (lo ≤ hi → lo ≤ clamp_duty d lo hi ∧ clamp_duty d lo hi ≤ hi) ∧
    write_duty_value d lo hi = clamp_duty d lo hi ∧
    (∀ (cfg : Config) (env : TickEnv) (w : Nat × ℤ), w ∈ (tick cfg env).1 →
       w.2 = clamp_duty w.2 cfg.min_duty cfg.max_duty) := by
  refine ⟨?_, clamp_duty_idem d lo hi, ?_, rfl, ?_⟩
  · unfold clamp_duty
    omega
  · intro h
    unfold clamp_duty
    omega
  · intro cfg env w hw
    obtain ⟨x, hx⟩ := tick_write_val cfg env w hw
    rw [hx]
    unfold write_duty_value
    exact (clamp_duty_idem x cfg.min_duty cfg.max_duty).symm

/-- Witness for C9 at duty 150, bounds [20, 100]. -/
theorem clamp_duty_spec_witness :
    (20 : ℤ) ≤ 100 ∧ (20 : ℤ) ≤ clamp_duty 150 20 100 ∧ clamp_duty 150 20 100 ≤ 100 :=
  ⟨by decide, (clamp_duty_spec 150 20 100).2.2.1 (by decide)⟩

/-! ### Helper lemmas about `tick` and `runLoop` -/

lemma tick_snd (cfg : Config) (env : TickEnv) : (tick cfg env).2 = true := by
  unfold tick
  cases h1 : env.cpuSample with
  | error e1 => rfl
  | ok ct =>
      cases h2 : env.memSample with
      | error e2 => rfl
      | ok mt =>
          simp only []
          cases h3 : lerp_curve ct cfg.cpu_curve with
          | none => rfl
          | some cd =>
              cases h4 : lerp_curve mt cfg.mem_curve with
              | none => rfl
              | some md =>
                  simp only []
                  by_cases h5 : env.write1Ok
                  · rw [if_pos h5]
                    by_cases h6 : env.write2Ok
                    · rw [if_pos h6]
                    · rw [if_neg h6]
                  · rw [if_neg h5]

lemma runLoop_length (cfg : Config) :
    ∀ envs : List TickEnv, (runLoop cfg envs).length = envs.length := by
  intro envs
  induction envs with
  | nil => rfl
  | cons e rest ih =>
      rw [runLoop]
      simp only [tick_snd cfg e, if_true, List.length_cons]
      rw [ih]

lemma tick_failed_writes (cfg : Config) (env : TickEnv)
    (hfail : tickOpFailed cfg env = true) :
    ∃ pre, (tick cfg env).1 = pre ++ failsafeWrites cfg env := by
  unfold tick tickOpFailed at *
  cases h1 : env.cpuSample with
  | error e1 => exact ⟨[], rfl⟩
  | ok ct =>
      rw [h1] at hfail
      cases h2 : env.memSample with
      | error e2 => exact ⟨[], rfl⟩
      | ok mt =>
          rw [h2] at hfail
          simp only [] at hfail ⊢
          cases h3 : lerp_curve ct cfg.cpu_curve with
          | none => exact ⟨[], rfl⟩
          | some cd =>
              rw [h3] at hfail
              cases h4 : lerp_curve mt cfg.mem_curve with
              | none => exact ⟨[], rfl⟩
              | some md =>
                  rw [h4] at hfail
                  simp only [] at hfail ⊢
                  by_cases h5 : env.write1Ok
                  · rw [if_pos h5]
                    by_cases h6 : env.write2Ok
                    · rw [h5, h6] at hfail
                      simp at hfail
                    · rw [if_neg h6]
                      exact ⟨[(1, write_duty_value cd cfg.min_duty cfg.max_duty)], rfl⟩
                  · rw [if_neg h5]
                    exact ⟨[], rfl⟩

lemma failsafeWrites_both (cfg : Config) (env : TickEnv)
    (h1 : env.fsWrite1Ok = true) (h2 : env.fsWrite2Ok = true) :
    failsafeWrites cfg env =
      [(1, clamp_duty cfg.failsafe_duty cfg.min_duty cfg.max_duty),
       (2, clamp_duty cfg.failsafe_duty cfg.min_duty cfg.max_duty)] := by
  unfold failsafeWrites
  rw [h1, h2]
  rfl

/-- C1: if any operation of a tick fails — sampling, curve evaluation, or
a duty write — the tick ends by writing the clamped failsafe duty to both
actuator paths (when those writes themselves succeed), a failure of the
failsafe writes is swallowed, the tick still asks the loop to continue,
and the loop processes every scheduled tick (it never terminates early). -/
theorem tick_failsafe_spec (cfg : Config) (env : TickEnv)
    (hfail : tickOpFailed cfg env = true) :
    (env.fsWrite1Ok = true → env.fsWrite2Ok = true →
       ∃ pre, (tick cfg env).1 = pre ++
         [(1, clamp_duty cfg.failsafe_duty cfg.min_duty cfg.max_duty),
          (2, clamp_duty cfg.failsafe_duty cfg.min_duty cfg.max_duty)]) ∧
    (tick cfg env).2 = true ∧
    (∀ envs : List TickEnv, (runLoop cfg envs).length = envs.length) := by
  refine ⟨?_, tick_snd cfg env, runLoop_length cfg⟩
  intro hf1 hf2
  obtain ⟨pre, hp⟩ := tick_failed_writes cfg env hfail
  exact ⟨pre, by rw [hp, failsafeWrites_both cfg env hf1 hf2]⟩

/-- Witness for C1: a tick whose CPU sample fails, failsafe writes
succeeding; failsafe duty 70 within bounds [20, 100]. -/
theorem tick_failsafe_spec_witness :
    tickOpFailed (Config.mk 20 100 70 [((40 : ℚ), (20 : ℤ))] [((35 : ℚ), (20 : ℤ))])
      (TickEnv.mk (Except.error "read failed") (Except.ok 50) true true true true) = true ∧
    (∃ pre,
      (tick (Config.mk 20 100 70 [((40 : ℚ), (20 : ℤ))] [((35 : ℚ), (20 : ℤ))])
        (TickEnv.mk (Except.error "read failed") (Except.ok 50) true true true true)).1 =
        pre ++ [(1, clamp_duty 70 20 100), (2, clamp_duty 70 20 100)]) ∧
    (tick (Config.mk 20 100 70 [((40 : ℚ), (20 : ℤ))] [((35 : ℚ), (20 : ℤ))])
        (TickEnv.mk (Except.error "read failed") (Except.ok 50) true true true true)).2 = true :=
  ⟨rfl,
   (tick_failsafe_spec
      (Config.mk 20 100 70 [((40 : ℚ), (20 : ℤ))] [((35 : ℚ), (20 : ℤ))])
      (TickEnv.mk (Except.error "read failed") (Except.ok 50) true true true true)
      rfl).1 rfl rfl,
   (tick_failsafe_spec
      (Config.mk 20 100 70 [((40 : ℚ), (20 : ℤ))] [((35 : ℚ), (20 : ℤ))])
      (TickEnv.mk (Except.error "read failed") (Except.ok 50) true true true true)
      rfl).2.1⟩
